import Mathlib

/-!
Verification development for a small grid-world MDP solver consisting of
an environment model (`gridworld.py`) and two dynamic-programming solvers
(`solver.py`: value iteration and policy iteration).

The environment model is embedded directly: states are integer pairs,
actions are the four cardinal labels, probabilities and utilities are exact
rationals (the Python code uses floats; every probability and reward in the
program is a small decimal, so the rational embedding is exact).

The solvers are embedded generically over the model interface they consume:
`solver.py` unpacks each transition entry as `(probability, next_state)`,
so the solver embedding takes a model whose transition function returns
`List (ℚ × S)` pairs in that order.  The environment's `getTransitions`,
however, returns the items of a dictionary keyed by next-state, i.e.
`(next_state, probability)` pairs; the composition of the two components
as shipped is embedded separately in an error monad.
-/

/-- Grid states are integer `(row, col)` pairs, as the Python tuples. -/
abbrev GState := Int × Int

/-- The four cardinal actions of `gridworld.py`, in the order of the
`self.actions` list. -/
inductive GWAction
  | North
  | South
  | East
  | West
deriving DecidableEq

open GWAction

/-- Grid height (`self.height = 3`). -/
def height : Int := 3

/-- Grid width (`self.width = 4`). -/
def width : Int := 4

/-- The single wall cell (`self.wall_states = {(1, 1)}`). -/
def wall_states : List GState := [(1, 1)]

/-- The goal cell (`self.goal_state = (0, 3)`). -/
def goal_state : GState := (0, 3)

/-- The trap cell (`self.trap_state = (1, 3)`). -/
def trap_state : GState := (1, 3)

/-- The terminal states (`self.terminal_states = {goal, trap}`). -/
def terminal_states : List GState := [goal_state, trap_state]

/-- The living penalty (`self.living_penalty = -0.04`). -/
def living_penalty : ℚ := -(4/100)

/-- The reward dictionary `self.rewards` (goal ↦ 1, trap ↦ -1). -/
def rewardTable (state : GState) : Option ℚ :=
  if state = goal_state then some 1
  else if state = trap_state then some (-1)
  else none

/-- The action list `self.actions = ['North', 'South', 'East', 'West']`. -/
def actions : List GWAction := [North, South, East, West]

/-- Slip probability (`self.slip_prob = 0.1`). -/
def slip_prob : ℚ := 1/10

/-- Intended move probability (`self.move_prob = 0.8`). -/
def move_prob : ℚ := 8/10

/-- All non-wall cells of the 3×4 grid, as built by the constructor's double
loop (`self.states`).  Python stores them in a set; the row-major order fixed
here is one admissible iteration order, and no settled claim depends on it. -/
def states : List GState :=
  [(0, 0), (0, 1), (0, 2), (0, 3),
   (1, 0), (1, 2), (1, 3),
   (2, 0), (2, 1), (2, 2), (2, 3)]

/-- `Gridworld.getStates`: returns all valid states. -/
def getStates : List GState := states

/-- `Gridworld.getActions`: `[]` for terminal states, else the full action
list.  Note the code performs no membership check against `self.states`. -/
def getActions (state : GState) : List GWAction :=
  if state ∈ terminal_states then [] else actions

/-- `Gridworld.getRewards`: `self.rewards.get(state, self.living_penalty)`. -/
def getRewards (state : GState) : ℚ :=
  (rewardTable state).getD living_penalty

/-- `Gridworld.isTerminal`: membership in the terminal-state set. -/
def isTerminal (state : GState) : Bool :=
  decide (state ∈ terminal_states)

/-- The `moves` dictionary of `getTransitions`. -/
def moves : GWAction → Int × Int
  | North => (-1, 0)
  | South => (1, 0)
  | East => (0, 1)
  | West => (0, -1)

/-- The `slip_left` dictionary of `getTransitions`. -/
def slip_left : GWAction → GWAction
  | North => West
  | South => East
  | East => North
  | West => South

/-- The `slip_right` dictionary of `getTransitions`. -/
def slip_right : GWAction → GWAction
  | North => East
  | South => West
  | East => South
  | West => North

/-- `Gridworld._check_move`: resolve a candidate move; off-grid or wall
targets resolve to the original state. -/
def check_move (state : GState) (move : Int × Int) : GState :=
  let next_r := state.1 + move.1
  let next_c := state.2 + move.2
  let next_state : GState := (next_r, next_c)
  if ¬(0 ≤ next_r ∧ next_r < height) ∨ ¬(0 ≤ next_c ∧ next_c < width) ∨
      next_state ∈ wall_states then
    state
  else
    next_state

/-- One `transitions[key] += p` step on the insertion-ordered association
list modelling the `collections.defaultdict(float)`: an existing key has `p`
added in place, a new key is appended at the end (Python dictionaries
preserve first-insertion order in `items()`). -/
def addProb (l : List (GState × ℚ)) (k : GState) (p : ℚ) : List (GState × ℚ) :=
  match l with
  | [] => [(k, p)]
  | (k0, p0) :: rest =>
      if k0 = k then (k0, p0 + p) :: rest else (k0, p0) :: addProb rest k p

/-- `Gridworld.getTransitions`: aggregate the intended move (weight 0.8) and
the two slip moves (weight 0.1 each) into the defaultdict and return
`list(transitions.items())`.  The dictionary is keyed by next-state, so the
returned pairs are `(next_state, probability)` — the first component is the
state, the probability is second, although the docstring of the Python
function announces `(probability, next_state)` tuples. -/
def getTransitions (state : GState) (action : GWAction) : List (GState × ℚ) :=
  if isTerminal state then []
  else
    let intended_move := moves action
    let left_move := moves (slip_left action)
    let right_move := moves (slip_right action)
    let t1 := addProb [] (check_move state intended_move) move_prob
    let t2 := addProb t1 (check_move state left_move) slip_prob
    addProb t2 (check_move state right_move) slip_prob

/-- The model interface consumed by `solver.py`.  The solver reads the
environment only through these five methods; in particular it unpacks every
transition entry as `for prob, next_state in ...`, so the interface type of
`getTransitions` puts the probability first. -/
structure MDP (S A : Type) where
  getStates : List S
  getActions : S → List A
  getRewards : S → ℚ
  isTerminal : S → Bool
  getTransitions : S → A → List (ℚ × S)

/-- Python's `max` over a list, with the `if action_values else 0` guard of
`solver.py` folded in: the empty list yields 0. -/
def listMax : List ℚ → ℚ
  | [] => 0
  | x :: xs => xs.foldl max x

/-- The `q_value` accumulation of `solver.py`: expected next-state utility of
action `a` in state `s` under utility table `U`. -/
def qValue {S A : Type} (m : MDP S A) (U : S → ℚ) (s : S) (a : A) : ℚ :=
  (m.getTransitions s a).foldl (fun q pr => q + pr.1 * U pr.2) 0

/-- One synchronous sweep of `value_iteration`'s main loop: starting from
`U_new = U.copy()` and `delta = 0`, update every state and track `delta`.
Terminal states are set to their reward and skipped (`continue`) before the
`delta` update; non-terminal states get the Bellman backup computed from the
previous table `U`. -/
def viSweep {S A : Type} [DecidableEq S] (m : MDP S A) (γ : ℚ) (U : S → ℚ) :
    (S → ℚ) × ℚ :=
  m.getStates.foldl
    (fun acc s =>
      if m.isTerminal s then
        (Function.update acc.1 s (m.getRewards s), acc.2)
      else
        let action_values := (m.getActions s).map (qValue m U s)
        let best_q := listMax action_values
        let v := m.getRewards s + γ * best_q
        (Function.update acc.1 s v, max acc.2 |v - U s|))
    (U, 0)

/-- The sweep loop of `value_iteration`: up to `n` sweeps, breaking as soon
as a sweep's `delta` drops below `epsilon * (1 - discount) / discount`.
The threshold uses total rational division, so at `γ = 0` it is 0 and the
loop runs on, whereas the Python source raises `ZeroDivisionError` at this
line after the first sweep; statements about out-of-range discounts are
therefore scoped to `γ ≠ 0`. -/
def viLoop {S A : Type} [DecidableEq S] (m : MDP S A) (γ ε : ℚ) :
    ℕ → (S → ℚ) → (S → ℚ)
  | 0, U => U
  | n + 1, U =>
    let swept := viSweep m γ U
    if swept.2 < ε * (1 - γ) / γ then swept.1 else viLoop m γ ε n swept.1

/-- One step of the greedy-action fold of `solver.py`'s policy extraction and
policy improvement: `best_action = None` and `best_q = -inf` initially, and an
action replaces the incumbent exactly when its q-value is strictly greater
(so the accumulator `none` — the minus-infinity start — is always replaced by
the first action). -/
def bestStep {S A : Type} (m : MDP S A) (U : S → ℚ) (s : S)
    (acc : Option (A × ℚ)) (a : A) : Option (A × ℚ) :=
  let q := qValue m U s a
  match acc with
  | none => some (a, q)
  | some ba => if ba.2 < q then some (a, q) else acc

/-- The greedy action for state `s` under table `U`: the fold of `bestStep`
over the available actions. -/
def extractBest {S A : Type} (m : MDP S A) (U : S → ℚ) (s : S) : Option A :=
  ((m.getActions s).foldl (bestStep m U s) none).map Prod.fst

/-- The policy-extraction pass at the end of `value_iteration`: terminal
states map to `None`, all others to the greedy action under the final `U`. -/
def viPolicy {S A : Type} (m : MDP S A) (U : S → ℚ) (s : S) : Option A :=
  if m.isTerminal s then none else extractBest m U s

/-- `solver.value_iteration`, returning `(policy, U)`. -/
def value_iteration {S A : Type} [DecidableEq S] (m : MDP S A) (γ : ℚ)
    (maxIter : ℕ) (ε : ℚ) : (S → Option A) × (S → ℚ) :=
  let U := viLoop m γ ε maxIter (fun _ => 0)
  (viPolicy m U, U)

/-- One sweep of `policy_iteration`'s inner policy-evaluation loop: as
`viSweep` but with the q-value of the current policy's action instead of the
maximum over actions.  For a non-terminal state the stored policy entry is an
action whenever the action set is nonempty; the `none` arm mirrors the
otherwise-crashing lookup `moves[None]` and is unreachable in every use made
of it below. -/
def evalSweep {S A : Type} [DecidableEq S] (m : MDP S A) (γ : ℚ)
    (π : S → Option A) (U : S → ℚ) : (S → ℚ) × ℚ :=
  m.getStates.foldl
    (fun acc s =>
      if m.isTerminal s then
        (Function.update acc.1 s (m.getRewards s), acc.2)
      else
        let q := match π s with
          | some a => qValue m U s a
          | none => 0
        let v := m.getRewards s + γ * q
        (Function.update acc.1 s v, max acc.2 |v - U s|))
    (U, 0)

/-- The inner policy-evaluation loop of `policy_iteration`: up to `n` sweeps
of `evalSweep`, with the same early-exit bound as `viLoop` — including the
same total-division caveat at `γ = 0`, where the source raises
`ZeroDivisionError` instead of looping on. -/
def evalLoop {S A : Type} [DecidableEq S] (m : MDP S A) (γ ε : ℚ)
    (π : S → Option A) : ℕ → (S → ℚ) → (S → ℚ)
  | 0, U => U
  | n + 1, U =>
    let swept := evalSweep m γ π U
    if swept.2 < ε * (1 - γ) / γ then swept.1 else evalLoop m γ ε π n swept.1

/-- The policy-improvement pass of `policy_iteration`: recompute the greedy
action of every non-terminal state against `U`, write it into the policy, and
clear the `policy_stable` flag whenever it differs from the entry it
replaces. -/
def improve {S A : Type} [DecidableEq S] [DecidableEq A] (m : MDP S A)
    (U : S → ℚ) (π : S → Option A) : (S → Option A) × Bool :=
  m.getStates.foldl
    (fun acc s =>
      if m.isTerminal s then acc
      else
        let old_action := acc.1 s
        let best_action := extractBest m U s
        (Function.update acc.1 s best_action,
         if old_action ≠ best_action then false else acc.2))
    (π, true)

/-- The outer loop of `policy_iteration` with explicit fuel: evaluate, then
improve, then stop if the policy was stable.  The boolean records whether the
loop ended through the stability break (`true`) or by exhausting its fuel
(`false`). -/
def piLoop {S A : Type} [DecidableEq S] [DecidableEq A] (m : MDP S A)
    (γ ε : ℚ) (maxIter : ℕ) :
    ℕ → (S → Option A) → (S → ℚ) → (S → Option A) × (S → ℚ) × Bool
  | 0, π, U => (π, U, false)
  | fuel + 1, π, U =>
    let U1 := evalLoop m γ ε π maxIter U
    let im := improve m U1 π
    if im.2 then (im.1, U1, true) else piLoop m γ ε maxIter fuel im.1 U1

/-- `solver.policy_iteration`, with the random initial policy made an
explicit parameter `init` (the Python code draws `policy[state] =
random.choice(gridworld.getActions(state))` for each non-terminal state; a
run of the program corresponds to some function `init` whose value at each
non-terminal state lies in its action set).  `max_iterations` bounds both
the outer loop and the inner evaluation loop, as in the source. -/
def policy_iteration {S A : Type} [DecidableEq S] [DecidableEq A] (m : MDP S A)
    (γ : ℚ) (maxIter : ℕ) (ε : ℚ) (init : S → A) :
    (S → Option A) × (S → ℚ) :=
  let π0 : S → Option A := fun s => if m.isTerminal s then none else some (init s)
  let r := piLoop m γ ε maxIter maxIter π0 (fun _ => 0)
  (r.1, r.2.1)

/-- The reference grid world packaged under the documented model interface:
transition pairs in the `(probability, next_state)` order that the docstring
of `Gridworld.getTransitions` announces and that `solver.py` unpacks.  The
pairs actually returned by `getTransitions` are dictionary items
`(next_state, probability)`; `Prod.swap` re-reads each item in the
documented order. -/
def gwDocModel : MDP GState GWAction where
  getStates := getStates
  getActions := getActions
  getRewards := getRewards
  isTerminal := isTerminal
  getTransitions := fun s a => (getTransitions s a).map Prod.swap

/-- The value `value_iteration`'s sweep writes for state `s`: the reward for
terminal states, otherwise the Bellman backup `reward + γ * max q` computed
from the previous table `U` alone. -/
def viNew {S A : Type} (m : MDP S A) (γ : ℚ) (U : S → ℚ) (s : S) : ℚ :=
  if m.isTerminal s then m.getRewards s
  else m.getRewards s + γ * listMax ((m.getActions s).map (qValue m U s))

/-- `k` break-free sweeps of `value_iteration`, for stating which table the
sweep loop stops at. -/
def viIterN {S A : Type} [DecidableEq S] (m : MDP S A) (γ : ℚ) :
    ℕ → (S → ℚ) → (S → ℚ)
  | 0, U => U
  | k + 1, U => viIterN m γ k (viSweep m γ U).1

/-- The `delta` produced by sweep number `k` (0-based) when sweeping from
`U` without ever breaking. -/
def sweepDeltaN {S A : Type} [DecidableEq S] (m : MDP S A) (γ : ℚ) (k : ℕ)
    (U : S → ℚ) : ℚ :=
  (viSweep m γ (viIterN m γ k U)).2

/-- The largest absolute utility change of one sweep taken across all states
of the model, terminal states included — the quantity the specification
describes as `delta`. -/
def allStatesDelta {S A : Type} [DecidableEq S] (m : MDP S A) (γ : ℚ)
    (U : S → ℚ) : ℚ :=
  (m.getStates.map (fun s => |(viSweep m γ U).1 s - U s|)).foldl max 0

/-- The largest absolute utility change of one sweep across the non-terminal
states only. -/
def nonTermDelta {S A : Type} [DecidableEq S] (m : MDP S A) (γ : ℚ)
    (U : S → ℚ) : ℚ :=
  ((m.getStates.filter (fun s => !m.isTerminal s)).map
    (fun s => |(viSweep m γ U).1 s - U s|)).foldl max 0

/-- The value `policy_iteration`'s evaluation sweep writes for state `s`. -/
def evalNew {S A : Type} (m : MDP S A) (γ : ℚ) (π : S → Option A) (U : S → ℚ)
    (s : S) : ℚ :=
  if m.isTerminal s then m.getRewards s
  else
    m.getRewards s + γ * (match π s with
      | some a => qValue m U s a
      | none => 0)

/-- One outer round of `policy_iteration`: evaluate the current policy, then
adopt the improved (greedy) policy. -/
def piRound {S A : Type} [DecidableEq S] [DecidableEq A] (m : MDP S A)
    (γ ε : ℚ) (maxIter : ℕ) (pu : (S → Option A) × (S → ℚ)) :
    (S → Option A) × (S → ℚ) :=
  let U1 := evalLoop m γ ε pu.1 maxIter pu.2
  ((improve m U1 pu.1).1, U1)

/-- `k` outer rounds of `policy_iteration`, never stopping early. -/
def piRoundIter {S A : Type} [DecidableEq S] [DecidableEq A] (m : MDP S A)
    (γ ε : ℚ) (maxIter : ℕ) :
    ℕ → (S → Option A) × (S → ℚ) → (S → Option A) × (S → ℚ)
  | 0, pu => pu
  | k + 1, pu => piRoundIter m γ ε maxIter k (piRound m γ ε maxIter pu)

/-- The `policy_stable` flag computed by round `k` (0-based) when starting
from the policy/utility pair `pu`: the improvement pass of that round is run
against the table its evaluation phase just produced. -/
def piStable {S A : Type} [DecidableEq S] [DecidableEq A] (m : MDP S A)
    (γ ε : ℚ) (maxIter : ℕ) (pu : (S → Option A) × (S → ℚ)) (k : ℕ) : Bool :=
  let pk := piRoundIter m γ ε maxIter k pu
  (improve m (evalLoop m γ ε pk.1 maxIter pk.2) pk.1).2

/-- Wellformedness of the reference transition distributions when each
returned dictionary item `(next_state, probability)` is read in those roles:
valid next-states, non-negative probabilities, pairwise-distinct next-states,
and total mass exactly 1. -/
def transitionsOK : Bool :=
  states.all fun s =>
    (getActions s).all fun a =>
      let t := getTransitions s a
      ((t.map Prod.fst).all fun ns => decide (ns ∈ states))
        && ((t.map Prod.snd).all fun p => decide (0 ≤ p))
        && decide ((t.map Prod.fst).Nodup)
        && decide ((t.map Prod.snd).foldl (fun x y => x + y) 0 = 1)

/-- Python runtime errors that the composed program can raise. -/
inductive PyErr
  | keyError
  | typeError
deriving DecidableEq

/-- A key of the solver's utility dictionary at runtime: the dictionary is
built with grid-state tuples as keys, but the solver's transition unpacking
indexes it with the second slot of each dictionary item, which holds a float
probability. -/
inductive PyKey
  | st : GState → PyKey
  | num : ℚ → PyKey
deriving DecidableEq

/-- Lookup in a Python dictionary (association list); a missing key raises
`KeyError`. -/
def dictGet (d : List (PyKey × ℚ)) (k : PyKey) : Except PyErr ℚ :=
  match d.find? (fun e => decide (e.1 = k)) with
  | some e => Except.ok e.2
  | none => Except.error PyErr.keyError

/-- Assignment `d[k] = v` in a Python dictionary: overwrite in place or
append. -/
def dictSet : List (PyKey × ℚ) → PyKey → ℚ → List (PyKey × ℚ)
  | [], k, v => [(k, v)]
  | (k0, v0) :: rest, k, v =>
      if k0 = k then (k0, v) :: rest else (k0, v0) :: dictSet rest k v

/-- The initial utility dictionary `{state: 0.0 for state in states}`. -/
def U0dict : List (PyKey × ℚ) := getStates.map fun s => (PyKey.st s, 0)

/-- The `q_value` loop of `solver.py` as composed with the shipped
`Gridworld.getTransitions`: each item is unpacked as `prob, next_state`, so
`prob` receives the state tuple and `next_state` the float probability;
`U[next_state]` then indexes the state-keyed dictionary with a float and
raises `KeyError`.  (Were the lookup ever to succeed, the following
`prob * ...` would multiply a tuple by a float, a `TypeError`; that arm is
dead code, kept to mirror the source expression.) -/
def qValueComposed (U : List (PyKey × ℚ)) (s : GState) (a : GWAction) :
    Except PyErr ℚ :=
  (getTransitions s a).foldlM
    (fun _q pr => do
      let _u ← dictGet U (PyKey.num pr.2)
      Except.error PyErr.typeError)
    (0 : ℚ)

/-- One sweep of the composed `value_iteration`. -/
def viSweepComposed (γ : ℚ) (U : List (PyKey × ℚ)) :
    Except PyErr (List (PyKey × ℚ) × ℚ) :=
  getStates.foldlM
    (fun acc s =>
      if isTerminal s then
        Except.ok (dictSet acc.1 (PyKey.st s) (getRewards s), acc.2)
      else do
        let action_values ← (getActions s).mapM (qValueComposed U s)
        let v := getRewards s + γ * listMax action_values
        let old ← dictGet U (PyKey.st s)
        Except.ok (dictSet acc.1 (PyKey.st s) v, max acc.2 |v - old|))
    (U, 0)

/-- The sweep loop of the composed `value_iteration`. -/
def viLoopComposed (γ ε : ℚ) : ℕ → List (PyKey × ℚ) →
    Except PyErr (List (PyKey × ℚ))
  | 0, U => Except.ok U
  | n + 1, U => do
    let swept ← viSweepComposed γ U
    if swept.2 < ε * (1 - γ) / γ then Except.ok swept.1
    else viLoopComposed γ ε n swept.1

/-- The greedy-action fold of the composed policy extraction/improvement. -/
def extractBestComposed (U : List (PyKey × ℚ)) (s : GState) :
    Except PyErr (Option GWAction) := do
  let r ← (getActions s).foldlM
    (fun (acc : Option (GWAction × ℚ)) a => do
      let q ← qValueComposed U s a
      match acc with
      | none => Except.ok (some (a, q))
      | some ba =>
          if ba.2 < q then Except.ok (some (a, q)) else Except.ok acc)
    none
  Except.ok (r.map Prod.fst)

/-- `solver.value_iteration` composed with the shipped `Gridworld`, in the
error monad. -/
def value_iteration_composed (γ : ℚ) (maxIter : ℕ) (ε : ℚ) :
    Except PyErr ((GState → Option GWAction) × List (PyKey × ℚ)) := do
  let U ← viLoopComposed γ ε maxIter U0dict
  let policy ← getStates.foldlM
    (fun (acc : GState → Option GWAction) s =>
      if isTerminal s then Except.ok (Function.update acc s none)
      else do
        let b ← extractBestComposed U s
        Except.ok (Function.update acc s b))
    (fun _ => none)
  Except.ok (policy, U)

/-- One sweep of the composed policy-evaluation loop.  For a non-terminal
state the stored policy entry is always an action; a `None` entry would make
the source crash in the `moves[action]` lookup, modelled by `KeyError`. -/
def evalSweepComposed (γ : ℚ) (π : GState → Option GWAction)
    (U : List (PyKey × ℚ)) : Except PyErr (List (PyKey × ℚ) × ℚ) :=
  getStates.foldlM
    (fun acc s =>
      if isTerminal s then
        Except.ok (dictSet acc.1 (PyKey.st s) (getRewards s), acc.2)
      else do
        let q ← match π s with
          | some a => qValueComposed U s a
          | none => Except.error PyErr.keyError
        let v := getRewards s + γ * q
        let old ← dictGet U (PyKey.st s)
        Except.ok (dictSet acc.1 (PyKey.st s) v, max acc.2 |v - old|))
    (U, 0)

/-- The inner evaluation loop of the composed `policy_iteration`. -/
def evalLoopComposed (γ ε : ℚ) (π : GState → Option GWAction) :
    ℕ → List (PyKey × ℚ) → Except PyErr (List (PyKey × ℚ))
  | 0, U => Except.ok U
  | n + 1, U => do
    let swept ← evalSweepComposed γ π U
    if swept.2 < ε * (1 - γ) / γ then Except.ok swept.1
    else evalLoopComposed γ ε π n swept.1

/-- The improvement pass of the composed `policy_iteration`. -/
def improveComposed (U : List (PyKey × ℚ)) (π : GState → Option GWAction) :
    Except PyErr ((GState → Option GWAction) × Bool) :=
  getStates.foldlM
    (fun acc s =>
      if isTerminal s then Except.ok acc
      else do
        let best ← extractBestComposed U s
        Except.ok (Function.update acc.1 s best,
          if acc.1 s ≠ best then false else acc.2))
    (π, true)

/-- The outer loop of the composed `policy_iteration`. -/
def piLoopComposed (γ ε : ℚ) (maxIter : ℕ) :
    ℕ → (GState → Option GWAction) → List (PyKey × ℚ) →
    Except PyErr ((GState → Option GWAction) × List (PyKey × ℚ))
  | 0, π, U => Except.ok (π, U)
  | fuel + 1, π, U => do
    let U1 ← evalLoopComposed γ ε π maxIter U
    let im ← improveComposed U1 π
    if im.2 then Except.ok (im.1, U1)
    else piLoopComposed γ ε maxIter fuel im.1 U1

/-- `solver.policy_iteration` composed with the shipped `Gridworld`, the
random initial policy drawn as `init`. -/
def policy_iteration_composed (γ : ℚ) (maxIter : ℕ) (ε : ℚ)
    (init : GState → GWAction) :
    Except PyErr ((GState → Option GWAction) × List (PyKey × ℚ)) :=
  let π0 : GState → Option GWAction :=
    fun s => if isTerminal s then none else some (init s)
  piLoopComposed γ ε maxIter maxIter π0 U0dict

/-- True exactly on a computation that raised `KeyError`. -/
def raisedKeyError {α : Type} : Except PyErr α → Bool
  | Except.error PyErr.keyError => true
  | _ => false

theorem foldl_pair_fst_nmem {S B C : Type} [DecidableEq S]
    (g : S → B) (h : C → S → C) :
    ∀ (l : List S) (f : S → B) (c : C) (s : S), s ∉ l →
      (l.foldl (fun acc x => (Function.update acc.1 x (g x), h acc.2 x))
        (f, c)).1 s = f s := by
  intro l
  induction l with
  | nil => intro f c s _; rfl
  | cons x t ih =>
      intro f c s hs
      simp only [List.foldl_cons]
      rw [ih _ _ _ (fun hmem => hs (List.mem_cons_of_mem x hmem))]
      exact Function.update_noteq (fun he => hs (by rw [he]; exact List.mem_cons_self x t)) _ _

theorem foldl_pair_fst_mem {S B C : Type} [DecidableEq S]
    (g : S → B) (h : C → S → C) :
    ∀ (l : List S) (f : S → B) (c : C) (s : S), l.Nodup → s ∈ l →
      (l.foldl (fun acc x => (Function.update acc.1 x (g x), h acc.2 x))
        (f, c)).1 s = g s := by
  intro l
  induction l with
  | nil => intro f c s _ hs; exact absurd hs (List.not_mem_nil s)
  | cons x t ih =>
      intro f c s hnd hs
      simp only [List.foldl_cons]
      rcases List.mem_cons.mp hs with he | hmem
      · subst he
        have hnin : s ∉ t := (List.nodup_cons.mp hnd).1
        rw [foldl_pair_fst_nmem g h t _ _ s hnin]
        exact Function.update_same s (g s) f
      · exact ih _ _ _ (List.nodup_cons.mp hnd).2 hmem

theorem foldl_pair_snd {S B : Type} [DecidableEq S]
    (g : S → B) (d : S → ℚ) (p : S → Bool) :
    ∀ (l : List S) (f : S → B) (c : ℚ),
      (l.foldl (fun acc x => (Function.update acc.1 x (g x),
          if p x then acc.2 else max acc.2 (d x))) (f, c)).2
        = ((l.filter (fun x => !p x)).map d).foldl max c := by
  intro l
  induction l with
  | nil => intro f c; rfl
  | cons x t ih =>
      intro f c
      simp only [List.foldl_cons, List.filter_cons]
      cases hx : p x with
      | true => simpa [hx] using ih (Function.update f x (g x)) c
      | false => simpa [hx] using ih (Function.update f x (g x)) (max c (d x))

theorem viSweep_eq_gen {S A : Type} [DecidableEq S] (m : MDP S A) (γ : ℚ)
    (U : S → ℚ) :
    viSweep m γ U
      = m.getStates.foldl
          (fun acc x => (Function.update acc.1 x (viNew m γ U x),
            if m.isTerminal x then acc.2 else max acc.2 |viNew m γ U x - U x|))
          (U, 0) := by
  unfold viSweep
  congr 1
  funext acc x
  cases hx : m.isTerminal x <;> simp [viNew, hx]

theorem evalSweep_eq_gen {S A : Type} [DecidableEq S] (m : MDP S A) (γ : ℚ)
    (π : S → Option A) (U : S → ℚ) :
    evalSweep m γ π U
      = m.getStates.foldl
          (fun acc x => (Function.update acc.1 x (evalNew m γ π U x),
            if m.isTerminal x then acc.2
            else max acc.2 |evalNew m γ π U x - U x|))
          (U, 0) := by
  unfold evalSweep
  congr 1
  funext acc x
  cases hx : m.isTerminal x <;> simp [evalNew, hx]

theorem viSweep_fst {S A : Type} [DecidableEq S] (m : MDP S A) (γ : ℚ)
    (U : S → ℚ) (hnd : m.getStates.Nodup) (s : S) (hs : s ∈ m.getStates) :
    (viSweep m γ U).1 s = viNew m γ U s := by
  rw [viSweep_eq_gen]
  exact foldl_pair_fst_mem (fun x => viNew m γ U x)
    (fun c x => if m.isTerminal x then c else max c |viNew m γ U x - U x|)
    m.getStates U 0 s hnd hs

theorem evalSweep_fst {S A : Type} [DecidableEq S] (m : MDP S A) (γ : ℚ)
    (π : S → Option A) (U : S → ℚ) (hnd : m.getStates.Nodup) (s : S)
    (hs : s ∈ m.getStates) :
    (evalSweep m γ π U).1 s = evalNew m γ π U s := by
  rw [evalSweep_eq_gen]
  exact foldl_pair_fst_mem (fun x => evalNew m γ π U x)
    (fun c x => if m.isTerminal x then c else max c |evalNew m γ π U x - U x|)
    m.getStates U 0 s hnd hs

theorem viSweep_snd {S A : Type} [DecidableEq S] (m : MDP S A) (γ : ℚ)
    (U : S → ℚ) :
    (viSweep m γ U).2
      = ((m.getStates.filter (fun x => !m.isTerminal x)).map
          (fun x => |viNew m γ U x - U x|)).foldl max 0 := by
  rw [viSweep_eq_gen]
  exact foldl_pair_snd (fun x => viNew m γ U x)
    (fun x => |viNew m γ U x - U x|) (fun x => m.isTerminal x)
    m.getStates U 0

theorem foldl_max_mem : ∀ (xs : List ℚ) (x : ℚ), xs.foldl max x ∈ x :: xs := by
  intro xs
  induction xs with
  | nil => intro x; exact List.mem_singleton.mpr rfl
  | cons y ys ih =>
      intro x
      rw [List.foldl_cons]
      rcases List.mem_cons.mp (ih (max x y)) with h3 | h3
      · rcases max_choice x y with hm | hm
        · rw [h3, hm]; exact List.mem_cons_self _ _
        · rw [h3, hm]; exact List.mem_cons_of_mem _ (List.mem_cons_self _ _)
      · exact List.mem_cons_of_mem _ (List.mem_cons_of_mem _ h3)

theorem listMax_mem (l : List ℚ) (h : l ≠ []) : listMax l ∈ l := by
  cases l with
  | nil => exact absurd rfl h
  | cons x xs => exact foldl_max_mem xs x

theorem le_foldl_max : ∀ (xs : List ℚ) (x z : ℚ), z ∈ x :: xs → z ≤ xs.foldl max x := by
  intro xs
  induction xs with
  | nil =>
      intro x z hz
      rw [List.foldl_nil]
      exact le_of_eq (List.mem_singleton.mp hz)
  | cons y ys ih =>
      intro x z hz
      rw [List.foldl_cons]
      rcases List.mem_cons.mp hz with h1 | h1
      · subst h1
        exact le_trans (le_max_left z y)
          (ih (max z y) (max z y) (List.mem_cons_self _ _))
      · rcases List.mem_cons.mp h1 with h2 | h2
        · subst h2
          exact le_trans (le_max_right x z)
            (ih (max x z) (max x z) (List.mem_cons_self _ _))
        · exact ih (max x y) z (List.mem_cons_of_mem _ h2)

theorem le_listMax (l : List ℚ) (z : ℚ) (hz : z ∈ l) : z ≤ listMax l := by
  cases l with
  | nil => exact absurd hz (List.not_mem_nil z)
  | cons x xs => exact le_foldl_max xs x z hz

theorem viLoop_break {S A : Type} [DecidableEq S] (m : MDP S A) (γ ε : ℚ) :
    ∀ (n k : ℕ) (U : S → ℚ), k < n →
      sweepDeltaN m γ k U < ε * (1 - γ) / γ →
      (∀ j, j < k → ¬ sweepDeltaN m γ j U < ε * (1 - γ) / γ) →
      viLoop m γ ε n U = viIterN m γ (k + 1) U := by
  intro n
  induction n with
  | zero => intro k U hk; exact absurd hk (Nat.not_lt_zero k)
  | succ n ih =>
      intro k U hk hsmall hbefore
      cases k with
      | zero =>
          have h0 : (viSweep m γ U).2 < ε * (1 - γ) / γ := hsmall
          show (if (viSweep m γ U).2 < ε * (1 - γ) / γ then (viSweep m γ U).1
              else viLoop m γ ε n (viSweep m γ U).1) = _
          rw [if_pos h0]
          rfl
      | succ k' =>
          have h0 : ¬ (viSweep m γ U).2 < ε * (1 - γ) / γ :=
            hbefore 0 (Nat.succ_pos k')
          show (if (viSweep m γ U).2 < ε * (1 - γ) / γ then (viSweep m γ U).1
              else viLoop m γ ε n (viSweep m γ U).1) = _
          rw [if_neg h0]
          exact ih k' (viSweep m γ U).1 (Nat.lt_of_succ_lt_succ hk) hsmall
            (fun j hj => hbefore (j + 1) (Nat.succ_lt_succ hj))

theorem viLoop_exhaust {S A : Type} [DecidableEq S] (m : MDP S A) (γ ε : ℚ) :
    ∀ (n : ℕ) (U : S → ℚ),
      (∀ j, j < n → ¬ sweepDeltaN m γ j U < ε * (1 - γ) / γ) →
      viLoop m γ ε n U = viIterN m γ n U := by
  intro n
  induction n with
  | zero => intro U _; rfl
  | succ n ih =>
      intro U hall
      have h0 : ¬ (viSweep m γ U).2 < ε * (1 - γ) / γ := hall 0 (Nat.succ_pos n)
      show (if (viSweep m γ U).2 < ε * (1 - γ) / γ then (viSweep m γ U).1
          else viLoop m γ ε n (viSweep m γ U).1) = _
      rw [if_neg h0]
      exact ih (viSweep m γ U).1 (fun j hj => hall (j + 1) (Nat.succ_lt_succ hj))

theorem viNew_terminal {S A : Type} (m : MDP S A) (γ : ℚ) (U : S → ℚ) (s : S)
    (ht : m.isTerminal s = true) : viNew m γ U s = m.getRewards s := by
  simp [viNew, ht]

theorem evalNew_terminal {S A : Type} (m : MDP S A) (γ : ℚ) (π : S → Option A)
    (U : S → ℚ) (s : S) (ht : m.isTerminal s = true) :
    evalNew m γ π U s = m.getRewards s := by
  simp [evalNew, ht]

theorem viLoop_terminal {S A : Type} [DecidableEq S] (m : MDP S A) (γ ε : ℚ)
    (hnd : m.getStates.Nodup) (s : S) (hs : s ∈ m.getStates)
    (ht : m.isTerminal s = true) :
    ∀ (n : ℕ) (U : S → ℚ), 1 ≤ n → viLoop m γ ε n U s = m.getRewards s := by
  intro n
  induction n with
  | zero => intro U h; exact absurd h (by simp)
  | succ n ih =>
      intro U _
      have hterm : (viSweep m γ U).1 s = m.getRewards s := by
        rw [viSweep_fst m γ U hnd s hs]
        exact viNew_terminal m γ U s ht
      show (if (viSweep m γ U).2 < ε * (1 - γ) / γ then (viSweep m γ U).1
          else viLoop m γ ε n (viSweep m γ U).1) s = _
      by_cases hb : (viSweep m γ U).2 < ε * (1 - γ) / γ
      · rw [if_pos hb]; exact hterm
      · rw [if_neg hb]
        cases n with
        | zero => exact hterm
        | succ n' => exact ih (viSweep m γ U).1 (Nat.succ_le_succ (Nat.zero_le n'))

theorem evalLoop_terminal {S A : Type} [DecidableEq S] (m : MDP S A) (γ ε : ℚ)
    (π : S → Option A) (hnd : m.getStates.Nodup) (s : S) (hs : s ∈ m.getStates)
    (ht : m.isTerminal s = true) :
    ∀ (n : ℕ) (U : S → ℚ), 1 ≤ n → evalLoop m γ ε π n U s = m.getRewards s := by
  intro n
  induction n with
  | zero => intro U h; exact absurd h (by simp)
  | succ n ih =>
      intro U _
      have hterm : (evalSweep m γ π U).1 s = m.getRewards s := by
        rw [evalSweep_fst m γ π U hnd s hs]
        exact evalNew_terminal m γ π U s ht
      show (if (evalSweep m γ π U).2 < ε * (1 - γ) / γ then (evalSweep m γ π U).1
          else evalLoop m γ ε π n (evalSweep m γ π U).1) s = _
      by_cases hb : (evalSweep m γ π U).2 < ε * (1 - γ) / γ
      · rw [if_pos hb]; exact hterm
      · rw [if_neg hb]
        cases n with
        | zero => exact hterm
        | succ n' =>
            exact ih (evalSweep m γ π U).1 (Nat.succ_le_succ (Nat.zero_le n'))

theorem piLoop_terminal {S A : Type} [DecidableEq S] [DecidableEq A]
    (m : MDP S A) (γ ε : ℚ) (maxIter : ℕ) (hmi : 1 ≤ maxIter)
    (hnd : m.getStates.Nodup) (s : S) (hs : s ∈ m.getStates)
    (ht : m.isTerminal s = true) :
    ∀ (fuel : ℕ) (π : S → Option A) (U : S → ℚ), 1 ≤ fuel →
      (piLoop m γ ε maxIter fuel π U).2.1 s = m.getRewards s := by
  intro fuel
  induction fuel with
  | zero => intro π U h; exact absurd h (by simp)
  | succ fuel ih =>
      intro π U _
      have hU1 : evalLoop m γ ε π maxIter U s = m.getRewards s :=
        evalLoop_terminal m γ ε π hnd s hs ht maxIter U hmi
      show (if (improve m (evalLoop m γ ε π maxIter U) π).2
          then ((improve m (evalLoop m γ ε π maxIter U) π).1,
            evalLoop m γ ε π maxIter U, true)
          else piLoop m γ ε maxIter fuel
            (improve m (evalLoop m γ ε π maxIter U) π).1
            (evalLoop m γ ε π maxIter U)).2.1 s = _
      by_cases hb : (improve m (evalLoop m γ ε π maxIter U) π).2 = true
      · rw [if_pos hb]; exact hU1
      · rw [if_neg hb]
        cases fuel with
        | zero => exact hU1
        | succ fuel' =>
            exact ih (improve m (evalLoop m γ ε π maxIter U) π).1
              (evalLoop m γ ε π maxIter U)
              (Nat.succ_le_succ (Nat.zero_le fuel'))

theorem improve_eq_gen {S A : Type} [DecidableEq S] [DecidableEq A]
    (m : MDP S A) (U : S → ℚ) (π : S → Option A) (b : Bool) :
    m.getStates.foldl
      (fun acc s =>
        if m.isTerminal s then acc
        else
          let old_action := acc.1 s
          let best_action := extractBest m U s
          (Function.update acc.1 s best_action,
            if old_action ≠ best_action then false else acc.2))
      (π, b)
    = m.getStates.foldl
        (fun acc x =>
          if m.isTerminal x then acc
          else (Function.update acc.1 x (extractBest m U x),
            if acc.1 x ≠ extractBest m U x then false else acc.2))
        (π, b) := rfl

theorem improve_foldl_fst {S A : Type} [DecidableEq S] [DecidableEq A]
    (m : MDP S A) (U : S → ℚ) :
    ∀ (l : List S) (π : S → Option A) (b : Bool) (s : S), l.Nodup →
      (l.foldl
        (fun acc x =>
          if m.isTerminal x then acc
          else (Function.update acc.1 x (extractBest m U x),
            if acc.1 x ≠ extractBest m U x then false else acc.2))
        (π, b)).1 s
      = if s ∈ l ∧ m.isTerminal s = false then extractBest m U s else π s := by
  intro l
  induction l with
  | nil =>
      intro π b s _
      have hnot : ¬ (s ∈ ([] : List S) ∧ m.isTerminal s = false) :=
        fun hc => List.not_mem_nil s hc.1
      rw [if_neg hnot]
      rfl
  | cons x t ih =>
      intro π b s hnd
      have hxt : x ∉ t := (List.nodup_cons.mp hnd).1
      have hndt : t.Nodup := (List.nodup_cons.mp hnd).2
      simp only [List.foldl_cons]
      cases hterm : m.isTerminal x with
      | true =>
          rw [if_pos rfl]
          rw [ih π b s hndt]
          by_cases hst : s ∈ t ∧ m.isTerminal s = false
          · rw [if_pos hst, if_pos ⟨List.mem_cons_of_mem x hst.1, hst.2⟩]
          · rw [if_neg hst]
            have hnc : ¬ (s ∈ x :: t ∧ m.isTerminal s = false) := by
              intro hc
              rcases List.mem_cons.mp hc.1 with he | hm
              · rw [he] at hc; rw [hc.2] at hterm; exact Bool.false_ne_true hterm
              · exact hst ⟨hm, hc.2⟩
            rw [if_neg hnc]
      | false =>
          rw [if_neg Bool.false_ne_true]
          rw [ih _ _ s hndt]
          by_cases hst : s ∈ t ∧ m.isTerminal s = false
          · rw [if_pos hst, if_pos ⟨List.mem_cons_of_mem x hst.1, hst.2⟩]
          · rw [if_neg hst]
            by_cases hsx : s = x
            · subst hsx
              rw [if_pos ⟨List.mem_cons_self s t, hterm⟩]
              exact Function.update_same s (extractBest m U s) π
            · rw [Function.update_noteq hsx]
              have hnc : ¬ (s ∈ x :: t ∧ m.isTerminal s = false) := by
                intro hc
                rcases List.mem_cons.mp hc.1 with he | hm
                · exact hsx he
                · exact hst ⟨hm, hc.2⟩
              rw [if_neg hnc]

theorem improve_foldl_flag {S A : Type} [DecidableEq S] [DecidableEq A]
    (m : MDP S A) (U : S → ℚ) :
    ∀ (l : List S) (π : S → Option A) (b : Bool), l.Nodup →
      ((l.foldl
        (fun acc x =>
          if m.isTerminal x then acc
          else (Function.update acc.1 x (extractBest m U x),
            if acc.1 x ≠ extractBest m U x then false else acc.2))
        (π, b)).2 = true
        ↔ (b = true ∧ ∀ s ∈ l, m.isTerminal s = false → π s = extractBest m U s)) := by
  intro l
  induction l with
  | nil =>
      intro π b _
      simp
  | cons x t ih =>
      intro π b hnd
      have hxt : x ∉ t := (List.nodup_cons.mp hnd).1
      have hndt : t.Nodup := (List.nodup_cons.mp hnd).2
      simp only [List.foldl_cons]
      rw [List.forall_mem_cons]
      cases hterm : m.isTerminal x with
      | true =>
          rw [if_pos rfl]
          rw [ih π b hndt]
          simp [hterm]
      | false =>
          rw [if_neg Bool.false_ne_true]
          rw [ih _ _ hndt]
          have hupd : ∀ s ∈ t, m.isTerminal s = false →
              (Function.update π x (extractBest m U x) s = extractBest m U s
                ↔ π s = extractBest m U s) := by
            intro s hs _
            have hsx : s ≠ x := fun he => hxt (he ▸ hs)
            rw [Function.update_noteq hsx]
          have hiff : (∀ s ∈ t, m.isTerminal s = false →
              Function.update π x (extractBest m U x) s = extractBest m U s)
              ↔ (∀ s ∈ t, m.isTerminal s = false → π s = extractBest m U s) := by
            constructor
            · intro h s hs hterm'; exact (hupd s hs hterm').mp (h s hs hterm')
            · intro h s hs hterm'; exact (hupd s hs hterm').mpr (h s hs hterm')
          rw [hiff]
          by_cases heq : π x = extractBest m U x
          · rw [if_neg (by simpa using heq)]
            simp [hterm, heq]
          · rw [if_pos (by simpa using heq)]
            simp [hterm, heq]

theorem improve_fst {S A : Type} [DecidableEq S] [DecidableEq A] (m : MDP S A)
    (U : S → ℚ) (π : S → Option A) (hnd : m.getStates.Nodup) (s : S) :
    (improve m U π).1 s
      = if s ∈ m.getStates ∧ m.isTerminal s = false then extractBest m U s
        else π s := by
  unfold improve
  exact improve_foldl_fst m U m.getStates π true s hnd

theorem improve_flag {S A : Type} [DecidableEq S] [DecidableEq A] (m : MDP S A)
    (U : S → ℚ) (π : S → Option A) (hnd : m.getStates.Nodup) :
    ((improve m U π).2 = true
      ↔ ∀ s ∈ m.getStates, m.isTerminal s = false → π s = extractBest m U s) := by
  unfold improve
  have h := improve_foldl_flag m U m.getStates π true hnd
  simpa using h

theorem piLoop_break {S A : Type} [DecidableEq S] [DecidableEq A] (m : MDP S A)
    (γ ε : ℚ) (maxIter : ℕ) :
    ∀ (fuel k : ℕ) (pu : (S → Option A) × (S → ℚ)), k < fuel →
      piStable m γ ε maxIter pu k = true →
      (∀ j, j < k → piStable m γ ε maxIter pu j = false) →
      piLoop m γ ε maxIter fuel pu.1 pu.2
        = ((piRoundIter m γ ε maxIter (k + 1) pu).1,
            (piRoundIter m γ ε maxIter (k + 1) pu).2, true) := by
  intro fuel
  induction fuel with
  | zero => intro k pu hk; exact absurd hk (Nat.not_lt_zero k)
  | succ fuel ih =>
      intro k pu hk hst hbefore
      show (if (improve m (evalLoop m γ ε pu.1 maxIter pu.2) pu.1).2
          then ((improve m (evalLoop m γ ε pu.1 maxIter pu.2) pu.1).1,
            evalLoop m γ ε pu.1 maxIter pu.2, true)
          else piLoop m γ ε maxIter fuel
            (improve m (evalLoop m γ ε pu.1 maxIter pu.2) pu.1).1
            (evalLoop m γ ε pu.1 maxIter pu.2)) = _
      cases k with
      | zero =>
          have h0 : (improve m (evalLoop m γ ε pu.1 maxIter pu.2) pu.1).2 = true := hst
          rw [if_pos h0]
          rfl
      | succ k' =>
          have h0 : (improve m (evalLoop m γ ε pu.1 maxIter pu.2) pu.1).2 = false :=
            hbefore 0 (Nat.succ_pos k')
          rw [h0]
          rw [if_neg Bool.false_ne_true]
          exact ih k' (piRound m γ ε maxIter pu) (Nat.lt_of_succ_lt_succ hk) hst
            (fun j hj => hbefore (j + 1) (Nat.succ_lt_succ hj))

theorem piLoop_exhaust {S A : Type} [DecidableEq S] [DecidableEq A] (m : MDP S A)
    (γ ε : ℚ) (maxIter : ℕ) :
    ∀ (fuel : ℕ) (pu : (S → Option A) × (S → ℚ)),
      (∀ j, j < fuel → piStable m γ ε maxIter pu j = false) →
      piLoop m γ ε maxIter fuel pu.1 pu.2
        = ((piRoundIter m γ ε maxIter fuel pu).1,
            (piRoundIter m γ ε maxIter fuel pu).2, false) := by
  intro fuel
  induction fuel with
  | zero => intro pu _; rfl
  | succ fuel ih =>
      intro pu hall
      show (if (improve m (evalLoop m γ ε pu.1 maxIter pu.2) pu.1).2
          then ((improve m (evalLoop m γ ε pu.1 maxIter pu.2) pu.1).1,
            evalLoop m γ ε pu.1 maxIter pu.2, true)
          else piLoop m γ ε maxIter fuel
            (improve m (evalLoop m γ ε pu.1 maxIter pu.2) pu.1).1
            (evalLoop m γ ε pu.1 maxIter pu.2)) = _
      have h0 : (improve m (evalLoop m γ ε pu.1 maxIter pu.2) pu.1).2 = false :=
        hall 0 (Nat.succ_pos fuel)
      rw [h0]
      rw [if_neg Bool.false_ne_true]
      exact ih (piRound m γ ε maxIter pu)
        (fun j hj => hall (j + 1) (Nat.succ_lt_succ hj))

theorem bestStep_foldl_spec {S A : Type} (m : MDP S A) (U : S → ℚ) (s : S) :
    ∀ (t : List A) (b : A),
      ∃ c, t.foldl (bestStep m U s) (some (b, qValue m U s b))
          = some (c, qValue m U s c)
        ∧ ((c = b ∧ ∀ x ∈ t, qValue m U s x ≤ qValue m U s b)
          ∨ ∃ t₁ t₂, t = t₁ ++ c :: t₂
              ∧ qValue m U s b < qValue m U s c
              ∧ (∀ x ∈ t₁, qValue m U s x < qValue m U s c)
              ∧ (∀ x ∈ t₂, qValue m U s x ≤ qValue m U s c)) := by
  intro t
  induction t with
  | nil =>
      intro b
      exact ⟨b, rfl, Or.inl ⟨rfl, fun x hx => absurd hx (List.not_mem_nil x)⟩⟩
  | cons a t ih =>
      intro b
      rw [List.foldl_cons]
      by_cases hlt : qValue m U s b < qValue m U s a
      · have hstep : bestStep m U s (some (b, qValue m U s b)) a
            = some (a, qValue m U s a) := by
          simp [bestStep, hlt]
        rw [hstep]
        rcases ih a with ⟨c, hc, hcase⟩
        refine ⟨c, hc, Or.inr ?_⟩
        rcases hcase with ⟨hcb, hall⟩ | ⟨t₁, t₂, hsplit, hblt, hbef, haft⟩
        · subst hcb
          exact ⟨[], t, rfl, hlt, fun x hx => absurd hx (List.not_mem_nil x), hall⟩
        · refine ⟨a :: t₁, t₂, by simp [hsplit], lt_trans hlt hblt, ?_, haft⟩
          intro x hx
          rcases List.mem_cons.mp hx with he | hm
          · rw [he]; exact hblt
          · exact hbef x hm
      · have hstep : bestStep m U s (some (b, qValue m U s b)) a
            = some (b, qValue m U s b) := by
          simp [bestStep, hlt]
        rw [hstep]
        rcases ih b with ⟨c, hc, hcase⟩
        refine ⟨c, hc, ?_⟩
        rcases hcase with ⟨hcb, hall⟩ | ⟨t₁, t₂, hsplit, hblt, hbef, haft⟩
        · refine Or.inl ⟨hcb, ?_⟩
          intro x hx
          rcases List.mem_cons.mp hx with he | hm
          · rw [he]; exact le_of_not_lt hlt
          · exact hall x hm
        · refine Or.inr ⟨a :: t₁, t₂, by simp [hsplit], hblt, ?_, haft⟩
          intro x hx
          rcases List.mem_cons.mp hx with he | hm
          · rw [he]; exact lt_of_le_of_lt (le_of_not_lt hlt) hblt
          · exact hbef x hm

theorem extractBest_spec {S A : Type} (m : MDP S A) (U : S → ℚ) (s : S)
    (h : m.getActions s ≠ []) :
    ∃ a₀ l₁ l₂, extractBest m U s = some a₀
      ∧ m.getActions s = l₁ ++ a₀ :: l₂
      ∧ (∀ x ∈ l₁, qValue m U s x < qValue m U s a₀)
      ∧ (∀ x ∈ l₂, qValue m U s x ≤ qValue m U s a₀) := by
  unfold extractBest
  cases hacts : m.getActions s with
  | nil => exact absurd hacts h
  | cons a t =>
      rw [List.foldl_cons]
      have hstep : bestStep m U s none a = some (a, qValue m U s a) := by
        simp [bestStep]
      rw [hstep]
      rcases bestStep_foldl_spec m U s t a with ⟨c, hc, hcase⟩
      rw [hc]
      rcases hcase with ⟨hcb, hall⟩ | ⟨t₁, t₂, hsplit, hblt, hbef, haft⟩
      · subst hcb
        exact ⟨c, [], t, rfl, rfl, fun x hx => absurd hx (List.not_mem_nil x), hall⟩
      · refine ⟨c, a :: t₁, t₂, rfl, by simp [hsplit], ?_, haft⟩
        intro x hx
        rcases List.mem_cons.mp hx with he | hm
        · rw [he]; exact hblt
        · exact hbef x hm

theorem qValue_zero {S A : Type} (m : MDP S A) (s : S) (a : A) :
    qValue m (fun _ => 0) s a = 0 := by
  unfold qValue
  have h : ∀ (l : List (ℚ × S)) (q : ℚ),
      l.foldl (fun q pr => q + pr.1 * (fun _ => (0 : ℚ)) pr.2) q = q := by
    intro l
    induction l with
    | nil => intro q; rfl
    | cons pr t ih =>
        intro q
        rw [List.foldl_cons]
        show t.foldl _ (q + pr.1 * 0) = q
        rw [mul_zero, add_zero]
        exact ih q
  exact h (m.getTransitions s a) 0

theorem bestStep_zero_fold {S A : Type} (m : MDP S A) (s : S) :
    ∀ (t : List A) (b : A),
      t.foldl (bestStep m (fun _ => 0) s) (some (b, 0)) = some (b, 0) := by
  intro t
  induction t with
  | nil => intro b; rfl
  | cons a t ih =>
      intro b
      rw [List.foldl_cons]
      have hstep : bestStep m (fun _ => 0) s (some (b, 0)) a = some (b, 0) := by
        simp [bestStep, qValue_zero]
      rw [hstep]
      exact ih b

theorem extractBest_zero {S A : Type} (m : MDP S A) (s : S) :
    extractBest m (fun _ => 0) s = (m.getActions s).head? := by
  unfold extractBest
  cases hacts : m.getActions s with
  | nil => rfl
  | cons a t =>
      rw [List.foldl_cons]
      have hstep : bestStep m (fun _ => 0) s none a = some (a, 0) := by
        simp [bestStep, qValue_zero]
      rw [hstep, bestStep_zero_fold m s t a]
      rfl

/-- C1: the claim reads `getTransitions` results as `(probability, next_state)`
pairs, as the function's docstring announces; the code instead returns the
dictionary items `(next_state, probability)`.  At state (2,0) with action
North the returned list carries the next-states in the first slot and the
probabilities in the second.  Read in the `(next_state, probability)` roles,
the aggregated distributions do satisfy all of the claimed wellformedness
properties (`transitionsOK`): valid next-states, non-negative probabilities,
pairwise-distinct next-states, and mass exactly 1. -/
theorem C1_transitions_items_swapped :
    getTransitions (2, 0) North = [((1, 0), 8/10), ((2, 0), 1/10), ((2, 1), 1/10)]
    ∧ (getTransitions (2, 0) North).map Prod.fst = [(1, 0), (2, 0), (2, 1)]
    ∧ (getTransitions (2, 0) North).map Prod.snd = [8/10, 1/10, 1/10]
    ∧ transitionsOK = true :=
  ⟨by with_unfolding_all decide, by with_unfolding_all decide,
   by with_unfolding_all decide, by with_unfolding_all decide⟩

/-- C8 counterexample: querying the environment with undefined states or
with actions outside a state's action set returns normal values instead of
failing.  The wall cell (1,1) and the off-grid cell (5,5) are not states, yet
`getActions` hands back the full action list and `getTransitions` a normal
aggregated distribution; the goal state has an empty action set, yet
`getTransitions` on it returns the empty outcome list for North rather than
an error. -/
theorem C8_counterexample :
    (1, 1) ∉ getStates
    ∧ (5, 5) ∉ getStates
    ∧ North ∉ getActions goal_state
    ∧ getActions (1, 1) = [North, South, East, West]
    ∧ getActions (5, 5) = [North, South, East, West]
    ∧ getTransitions (1, 1) North = [((0, 1), 8/10), ((1, 0), 1/10), ((1, 2), 1/10)]
    ∧ getTransitions goal_state North = [] :=
  ⟨by decide, by decide, by decide, by decide, by decide,
   by with_unfolding_all decide, by decide⟩

/-- C8 as amended: the environment performs no state validation at all —
`getActions` returns the full action list for every non-terminal argument
(defined state or not), `getTransitions` returns the empty list for a
terminal state whatever the action, and returns a normal non-empty
distribution for the undefined wall state. -/
theorem C8_amended :
    (∀ s : GState, s ∉ terminal_states → getActions s = actions)
    ∧ (∀ s : GState, s ∈ terminal_states → ∀ a, getTransitions s a = [])
    ∧ (∀ a, getTransitions (1, 1) a ≠ []) := by
  refine ⟨?_, ?_, ?_⟩
  · intro s hs
    unfold getActions
    rw [if_neg hs]
  · intro s hs a
    unfold getTransitions
    rw [if_pos (by simp [isTerminal, hs])]
  · intro a
    cases a <;> with_unfolding_all decide

theorem C8_witness :
    getActions (1, 1) = actions ∧ getTransitions goal_state West = [] :=
  ⟨C8_amended.1 (1, 1) (by decide), C8_amended.2.1 goal_state (by decide) West⟩

/-- C10: with `max_iterations = 0` the sweep loop never runs, so
`value_iteration` returns the all-zero utility table, and the extraction pass
maps every terminal state to no action and every other state to the first
action of its enumeration (all actions tie at expected value 0, and the
strict-improvement comparison keeps the first). -/
theorem C10_zero_iterations {S A : Type} [DecidableEq S] (m : MDP S A)
    (γ ε : ℚ) :
    (value_iteration m γ 0 ε).2 = (fun _ => 0)
    ∧ ∀ s, (value_iteration m γ 0 ε).1 s
        = if m.isTerminal s then none else (m.getActions s).head? := by
  refine ⟨rfl, fun s => ?_⟩
  show viPolicy m (viLoop m γ ε 0 (fun _ => 0)) s = _
  have h0 : viLoop m γ ε 0 (fun _ => (0 : ℚ)) = (fun _ => 0) := rfl
  rw [h0]
  cases ht : m.isTerminal s <;> simp [viPolicy, ht, extractBest_zero]

set_option maxRecDepth 40000 in
/-- C9 counterexample: on the first sweep of the reference model the `delta`
computed by the code is 1/25 (the largest non-terminal change), while the
largest absolute utility change across all states, terminal states included,
is 1 — the terminal states move from 0 to their rewards, and the `continue`
in the terminal branch skips the `delta` update. -/
theorem C9_counterexample :
    (viSweep gwDocModel (9/10) (fun _ => 0)).2 = 1/25
    ∧ allStatesDelta gwDocModel (9/10) (fun _ => 0) = 1
    ∧ (viSweep gwDocModel (9/10) (fun _ => 0)).2
        ≠ allStatesDelta gwDocModel (9/10) (fun _ => 0) :=
  ⟨by with_unfolding_all decide, by with_unfolding_all decide,
   by with_unfolding_all decide⟩

/-- C9 as amended: the per-sweep `delta` equals the largest absolute utility
change across the non-terminal states only; terminal states are excluded
from the `delta` computation by the `continue` in their branch. -/
theorem C9_amended {S A : Type} [DecidableEq S] (m : MDP S A) (γ : ℚ)
    (U : S → ℚ) (hnd : m.getStates.Nodup) :
    (viSweep m γ U).2 = nonTermDelta m γ U := by
  rw [viSweep_snd]
  unfold nonTermDelta
  have hmap : (m.getStates.filter (fun x => !m.isTerminal x)).map
        (fun x => |viNew m γ U x - U x|)
      = (m.getStates.filter (fun x => !m.isTerminal x)).map
          (fun x => |(viSweep m γ U).1 x - U x|) := by
    apply List.map_congr_left
    intro x hx
    rw [viSweep_fst m γ U hnd x (List.mem_of_mem_filter hx)]
  rw [hmap]

theorem C9_witness :
    (viSweep gwDocModel (1/2) (fun _ => 0)).2 = nonTermDelta gwDocModel (1/2) (fun _ => 0) :=
  C9_amended gwDocModel (1/2) (fun _ => 0) (by decide)

/-- C4: the policy returned by `value_iteration` is the extraction pass
applied to the final (frozen) utility table; terminal states map to no
action; every non-terminal state with a non-empty action set maps to the
action of maximal expected next-state utility under the final table, with
ties resolved to the earliest such action in the enumeration order (all
earlier actions are strictly worse, all later ones no better). -/
theorem C4_policy_extraction {S A : Type} [DecidableEq S] (m : MDP S A)
    (γ ε : ℚ) (n : ℕ) :
    (value_iteration m γ n ε).1 = viPolicy m ((value_iteration m γ n ε).2)
    ∧ (∀ s, m.isTerminal s = true → (value_iteration m γ n ε).1 s = none)
    ∧ (∀ s, m.isTerminal s = false → m.getActions s ≠ [] →
        ∃ a₀ l₁ l₂,
          (value_iteration m γ n ε).1 s = some a₀
          ∧ m.getActions s = l₁ ++ a₀ :: l₂
          ∧ (∀ x ∈ l₁, qValue m ((value_iteration m γ n ε).2) s x
              < qValue m ((value_iteration m γ n ε).2) s a₀)
          ∧ (∀ x ∈ l₂, qValue m ((value_iteration m γ n ε).2) s x
              ≤ qValue m ((value_iteration m γ n ε).2) s a₀)) := by
  refine ⟨rfl, ?_, ?_⟩
  · intro s ht
    show viPolicy m (viLoop m γ ε n (fun _ => 0)) s = none
    simp [viPolicy, ht]
  · intro s ht hne
    rcases extractBest_spec m (viLoop m γ ε n (fun _ => 0)) s hne with
      ⟨a₀, l₁, l₂, hbest, hsplit, hbef, haft⟩
    refine ⟨a₀, l₁, l₂, ?_, hsplit, hbef, haft⟩
    show viPolicy m (viLoop m γ ε n (fun _ => 0)) s = some a₀
    simpa [viPolicy, ht] using hbest

theorem C4_witness :
    ∃ a₀ l₁ l₂,
      (value_iteration gwDocModel (9/10) 0 (1/10000)).1 (2, 0) = some a₀
      ∧ gwDocModel.getActions (2, 0) = l₁ ++ a₀ :: l₂
      ∧ (∀ x ∈ l₁, qValue gwDocModel ((value_iteration gwDocModel (9/10) 0 (1/10000)).2) (2, 0) x
          < qValue gwDocModel ((value_iteration gwDocModel (9/10) 0 (1/10000)).2) (2, 0) a₀)
      ∧ (∀ x ∈ l₂, qValue gwDocModel ((value_iteration gwDocModel (9/10) 0 (1/10000)).2) (2, 0) x
          ≤ qValue gwDocModel ((value_iteration gwDocModel (9/10) 0 (1/10000)).2) (2, 0) a₀) :=
  (C4_policy_extraction gwDocModel (9/10) (1/10000) 0).2.2 (2, 0)
    (by decide) (by decide)

/-- C6: whenever `max_iterations ≥ 1`, every sweep of either solver writes
the bare reward into each terminal state, so the returned utility of every
terminal state equals its reward exactly — for every discount value, every
tolerance, and every iteration count at which the loop stops; in the
reference model the goal state's reward is +1 and the trap state's is -1. -/
theorem C6_terminal_utilities {S A : Type} [DecidableEq S] [DecidableEq A]
    (m : MDP S A) (γ ε : ℚ) (n : ℕ) (hn : 1 ≤ n) (hnd : m.getStates.Nodup) :
    (∀ s ∈ m.getStates, m.isTerminal s = true →
        (value_iteration m γ n ε).2 s = m.getRewards s)
    ∧ (∀ init : S → A, ∀ s ∈ m.getStates, m.isTerminal s = true →
        (policy_iteration m γ n ε init).2 s = m.getRewards s)
    ∧ gwDocModel.getRewards goal_state = 1
    ∧ gwDocModel.getRewards trap_state = -1 := by
  refine ⟨?_, ?_, by with_unfolding_all decide, by with_unfolding_all decide⟩
  · intro s hs ht
    exact viLoop_terminal m γ ε hnd s hs ht n (fun _ => 0) hn
  · intro init s hs ht
    show (piLoop m γ ε n n
        (fun s => if m.isTerminal s then none else some (init s))
        (fun _ => 0)).2.1 s = _
    exact piLoop_terminal m γ ε n hn hnd s hs ht n _ _ hn

theorem C6_witness :
    (value_iteration gwDocModel (9/10) 1 (1/10000)).2 goal_state
      = gwDocModel.getRewards goal_state :=
  (C6_terminal_utilities gwDocModel (9/10) (1/10000) 1 (by decide) (by decide)).1
    goal_state (by decide) (by decide)

set_option maxRecDepth 100000 in
/-- C7 counterexample: a discount of 2 (and likewise -1) is not rejected —
both solvers run their sweeps and return normally: after one sweep the
non-terminal start state carries reward + γ·0 = -1/25 and the terminal
states carry their rewards, so computation proceeded rather than stopping at
entry. -/
theorem C7_counterexample :
    (value_iteration gwDocModel 2 1 (1/10000)).2 (2, 0) = -(1/25)
    ∧ (value_iteration gwDocModel 2 1 (1/10000)).2 (0, 3) = 1
    ∧ (policy_iteration gwDocModel 2 1 (1/10000) (fun _ => North)).2 (0, 3) = 1
    ∧ (value_iteration gwDocModel (-1) 1 (1/10000)).2 (2, 0) = -(1/25) :=
  ⟨by with_unfolding_all decide, by with_unfolding_all decide,
   by with_unfolding_all decide, by with_unfolding_all decide⟩

/-- C7 as amended: neither solver validates the discount parameter at
entry.  For any non-zero discount outside (0,1) the sweep loop runs as
usual and the call returns a normally computed result (witnessed by the
terminal utilities having been written by the sweeps).  Discount exactly 0
is excluded from this statement: there the source is still not rejected at
entry, but it dies mid-loop with `ZeroDivisionError` at the convergence
threshold `epsilon * (1 - discount) / discount`, an error path the total
rational division of `viLoop`/`evalLoop` does not represent. -/
theorem C7_amended {S A : Type} [DecidableEq S] [DecidableEq A] (m : MDP S A)
    (γ ε : ℚ) (n : ℕ) (_hout : γ < 0 ∨ 1 ≤ γ) (hn : 1 ≤ n)
    (hnd : m.getStates.Nodup) (init : S → A) :
    ∀ s ∈ m.getStates, m.isTerminal s = true →
      (value_iteration m γ n ε).2 s = m.getRewards s
      ∧ (policy_iteration m γ n ε init).2 s = m.getRewards s := by
  intro s hs ht
  constructor
  · exact viLoop_terminal m γ ε hnd s hs ht n (fun _ => 0) hn
  · show (piLoop m γ ε n n
        (fun s => if m.isTerminal s then none else some (init s))
        (fun _ => 0)).2.1 s = _
    exact piLoop_terminal m γ ε n hn hnd s hs ht n _ _ hn

theorem C7_witness :
    (value_iteration gwDocModel 2 1 (1/10000)).2 (1, 3)
        = gwDocModel.getRewards (1, 3)
    ∧ (policy_iteration gwDocModel 2 1 (1/10000) (fun _ => South)).2 (1, 3)
        = gwDocModel.getRewards (1, 3) :=
  C7_amended gwDocModel 2 (1/10000) 1 (Or.inr (by with_unfolding_all decide))
    (by decide) (by decide) (fun _ => South) (1, 3) (by decide) (by decide)

/-- C2: `value_iteration` starts from the all-zero table; each sweep is
synchronous — the value it writes for a state is a function `viNew` of the
previous sweep's table alone, equal to the bare reward for terminal states
and to `reward + discount · (maximum over the available actions of the
expected next-state utility)` for non-terminal states — and the sweep loop
returns right after the first sweep whose `delta` drops below
`epsilon·(1-discount)/discount`, running exactly `max_iterations` sweeps
when no sweep does. -/
theorem C2_value_iteration_algorithm {S A : Type} [DecidableEq S]
    (m : MDP S A) (γ ε : ℚ) (n : ℕ) (hnd : m.getStates.Nodup) :
    (value_iteration m γ n ε).2 = viLoop m γ ε n (fun _ => 0)
    ∧ (∀ (U : S → ℚ), ∀ s ∈ m.getStates,
        (viSweep m γ U).1 s = viNew m γ U s)
    ∧ (∀ (U : S → ℚ) (s : S), m.isTerminal s = true →
        viNew m γ U s = m.getRewards s)
    ∧ (∀ (U : S → ℚ) (s : S), m.isTerminal s = false → m.getActions s ≠ [] →
        ∃ M, viNew m γ U s = m.getRewards s + γ * M
          ∧ M ∈ (m.getActions s).map (qValue m U s)
          ∧ ∀ q ∈ (m.getActions s).map (qValue m U s), q ≤ M)
    ∧ (∀ (U : S → ℚ) (k : ℕ), k < n →
        sweepDeltaN m γ k U < ε * (1 - γ) / γ →
        (∀ j, j < k → ¬ sweepDeltaN m γ j U < ε * (1 - γ) / γ) →
        viLoop m γ ε n U = viIterN m γ (k + 1) U)
    ∧ (∀ (U : S → ℚ),
        (∀ j, j < n → ¬ sweepDeltaN m γ j U < ε * (1 - γ) / γ) →
        viLoop m γ ε n U = viIterN m γ n U) := by
  refine ⟨rfl, ?_, ?_, ?_, ?_, ?_⟩
  · intro U s hs
    exact viSweep_fst m γ U hnd s hs
  · intro U s ht
    exact viNew_terminal m γ U s ht
  · intro U s ht hne
    refine ⟨listMax ((m.getActions s).map (qValue m U s)), ?_, ?_, ?_⟩
    · simp [viNew, ht]
    · exact listMax_mem _ (fun hmap => hne (List.map_eq_nil_iff.mp hmap))
    · intro q hq
      exact le_listMax _ q hq
  · intro U k hk h1 h2
    exact viLoop_break m γ ε n k U hk h1 h2
  · intro U h
    exact viLoop_exhaust m γ ε n U h

set_option maxRecDepth 100000 in
theorem C2_witness :
    sweepDeltaN gwDocModel (9/10) 0 (fun _ => 0) < 1 * (1 - 9/10) / (9/10)
    ∧ viLoop gwDocModel (9/10) 1 2 (fun _ => 0)
        = viIterN gwDocModel (9/10) (0 + 1) (fun _ => 0) :=
  ⟨by with_unfolding_all decide,
   (C2_value_iteration_algorithm gwDocModel (9/10) 1 2 (by decide)).2.2.2.2.1
     (fun _ => 0) 0 (by decide) (by with_unfolding_all decide)
     (fun j hj => absurd hj (Nat.not_lt_zero j))⟩

/-- C5: the improvement pass recomputes the greedy action of every
non-terminal state against the freshly evaluated table (terminal entries are
left untouched); the `policy_stable` flag of a pass is set exactly when every
non-terminal state's greedy action equals its policy entry from before the
pass; each round evaluates the current policy and adopts the improved
(greedy) policy for the next round; and the outer loop ends through the
stability break exactly at the first stable round, exhausting its
`max_iterations` fuel otherwise. -/
theorem C5_policy_iteration_loop {S A : Type} [DecidableEq S] [DecidableEq A]
    (m : MDP S A) (γ ε : ℚ) (maxIter : ℕ) (hnd : m.getStates.Nodup) :
    (∀ (U : S → ℚ) (π : S → Option A), ∀ s ∈ m.getStates,
        (m.isTerminal s = false → (improve m U π).1 s = extractBest m U s)
        ∧ (m.isTerminal s = true → (improve m U π).1 s = π s))
    ∧ (∀ (U : S → ℚ) (π : S → Option A),
        ((improve m U π).2 = true
          ↔ ∀ s ∈ m.getStates, m.isTerminal s = false →
              π s = extractBest m U s))
    ∧ (∀ pu : (S → Option A) × (S → ℚ),
        piRound m γ ε maxIter pu
          = ((improve m (evalLoop m γ ε pu.1 maxIter pu.2) pu.1).1,
              evalLoop m γ ε pu.1 maxIter pu.2))
    ∧ (∀ (fuel k : ℕ) (pu : (S → Option A) × (S → ℚ)), k < fuel →
        piStable m γ ε maxIter pu k = true →
        (∀ j, j < k → piStable m γ ε maxIter pu j = false) →
        piLoop m γ ε maxIter fuel pu.1 pu.2
          = ((piRoundIter m γ ε maxIter (k + 1) pu).1,
              (piRoundIter m γ ε maxIter (k + 1) pu).2, true))
    ∧ (∀ (fuel : ℕ) (pu : (S → Option A) × (S → ℚ)),
        (∀ j, j < fuel → piStable m γ ε maxIter pu j = false) →
        piLoop m γ ε maxIter fuel pu.1 pu.2
          = ((piRoundIter m γ ε maxIter fuel pu).1,
              (piRoundIter m γ ε maxIter fuel pu).2, false)) := by
  refine ⟨?_, ?_, fun pu => rfl,
    piLoop_break m γ ε maxIter, piLoop_exhaust m γ ε maxIter⟩
  · intro U π s hs
    constructor
    · intro ht
      rw [improve_fst m U π hnd s, if_pos ⟨hs, ht⟩]
    · intro ht
      have hnc : ¬ (s ∈ m.getStates ∧ m.isTerminal s = false) := by
        intro hc
        rw [ht] at hc
        exact absurd hc.2 (by decide)
      rw [improve_fst m U π hnd s, if_neg hnc]
  · intro U π
    exact improve_flag m U π hnd

set_option maxRecDepth 400000 in
theorem C5_witness :
    piLoop gwDocModel (9/10) (1/10000) 1 1
        (fun s => if gwDocModel.isTerminal s then none else some North)
        (fun _ => 0)
      = ((piRoundIter gwDocModel (9/10) (1/10000) 1 1
            (fun s => if gwDocModel.isTerminal s then none else some North,
             fun _ => 0)).1,
         (piRoundIter gwDocModel (9/10) (1/10000) 1 1
            (fun s => if gwDocModel.isTerminal s then none else some North,
             fun _ => 0)).2, false) :=
  (C5_policy_iteration_loop gwDocModel (9/10) (1/10000) 1 (by decide)).2.2.2.2 1
    (fun s => if gwDocModel.isTerminal s then none else some North, fun _ => 0)
    (fun j hj => by
      have hj0 : j = 0 := Nat.lt_one_iff.mp hj
      subst hj0
      with_unfolding_all decide)

theorem qValueComposed_err : ∀ a : GWAction,
    qValueComposed U0dict (0, 0) a = Except.error PyErr.keyError := by
  intro a
  cases a <;> rfl

theorem evalSweepComposed_err (γ : ℚ) (π : GState → Option GWAction)
    (a : GWAction) (hπ : π (0, 0) = some a) :
    evalSweepComposed γ π U0dict = Except.error PyErr.keyError := by
  unfold evalSweepComposed
  have hstates : getStates
      = (0, 0) :: [(0, 1), (0, 2), (0, 3), (1, 0), (1, 2), (1, 3),
          (2, 0), (2, 1), (2, 2), (2, 3)] := rfl
  rw [hstates, List.foldlM_cons]
  have hterm : isTerminal (0, 0) = false := rfl
  simp only [hterm, Bool.false_eq_true, if_false, hπ]
  rw [qValueComposed_err a]
  rfl

theorem evalLoopComposed_err (γ ε : ℚ) (π : GState → Option GWAction)
    (a : GWAction) (hπ : π (0, 0) = some a) (n : ℕ) :
    evalLoopComposed γ ε π (n + 1) U0dict = Except.error PyErr.keyError := by
  show (do
    let swept ← evalSweepComposed γ π U0dict
    if swept.2 < ε * (1 - γ) / γ then Except.ok swept.1
    else evalLoopComposed γ ε π n swept.1) = _
  rw [evalSweepComposed_err γ π a hπ]
  rfl

theorem piLoopComposed_err (γ ε : ℚ) (mi fuel : ℕ)
    (π : GState → Option GWAction) (a : GWAction) (hπ : π (0, 0) = some a) :
    piLoopComposed γ ε (mi + 1) (fuel + 1) π U0dict
      = Except.error PyErr.keyError := by
  show (do
    let U1 ← evalLoopComposed γ ε π (mi + 1) U0dict
    let im ← improveComposed U1 π
    if im.2 then Except.ok (im.1, U1)
    else piLoopComposed γ ε (mi + 1) fuel im.1 U1) = _
  rw [evalLoopComposed_err γ ε π a hπ mi]
  rfl

set_option maxRecDepth 100000 in
/-- C3: on the reference 4×3 grid world with the default parameters
(discount 0.9, max_iterations 100, epsilon 1e-4) neither solver returns at
all: `getTransitions` yields dictionary items `(next_state, probability)`
while the solver unpacks them as `(probability, next_state)`, so the first
expected-utility accumulation indexes the state-keyed utility dictionary
with a float and raises `KeyError` — value iteration in its first sweep, and
policy iteration, for every possible random initial policy, in its first
evaluation sweep. -/
theorem C3_both_solvers_raise :
    raisedKeyError (value_iteration_composed (9/10) 100 (1/10000)) = true
    ∧ ∀ init : GState → GWAction,
        raisedKeyError (policy_iteration_composed (9/10) 100 (1/10000) init)
          = true := by
  constructor
  · with_unfolding_all decide
  · intro init
    show raisedKeyError (piLoopComposed (9/10) (1/10000) 100 100
      (fun s => if isTerminal s then none else some (init s)) U0dict) = true
    have h : piLoopComposed (9/10) (1/10000) 100 100
        (fun s => if isTerminal s then none else some (init s)) U0dict
        = Except.error PyErr.keyError :=
      piLoopComposed_err (9/10) (1/10000) 99 99
        (fun s => if isTerminal s then none else some (init s))
        (init (0, 0)) rfl
    rw [h]
    rfl
